import Mathlib

/-!
Verification of the gondola query-construction and execution core.

The Go sources embedded here:
* `src/unnamed/part_002` (package `sql`): `(*DB).replacePlaceholders`,
  `(*DB).Exec/Query/QueryRow`, `(*DB).Begin/Commit/Rollback/Close`,
  `(*DB).preparedStmt`.
* `src/orm/model.go` (package `orm`): `(*model).Map`, `(*joinModel).Map`,
  `(*joinModel).joinWith`, `(*joinModel).joinWithField`,
  `(*joinModel).Fields`, `sortModels.less`.

SQL text is modelled as `List Char` (the scanners in the source work over
ASCII bytes; every character they inspect is ASCII).  Pointers to models,
prepared statements, result sets and reflective types are modelled as `Nat`
identifiers; pointer comparison in Go becomes equality of identifiers.
External collaborator behaviour (the `database/sql` backend) enters as
explicit function parameters.
-/

namespace Gondola

/-- SQL text: the Go code scans byte strings; all inspected bytes are ASCII. -/
abbrev Chars := List Char

/-- The single-quote character, used pervasively by the quote scanners. -/
def sq : Char := '\''

/-!
## Placeholder rewriting — `(*DB).replacePlaceholders`, part_002 lines 54-83.

The Go loop walks the query once keeping `inQuote`/`inDoubleQuote` state and
a parameter counter `p`.  On a single quote it toggles `inQuote` only when
`ii == last || query[ii+1] != '\''`; on `"` it toggles `inDoubleQuote`; on
`?` outside both quote states it emits `placeholder(p)` and increments `p`;
every other character (and `?` inside quotes) is copied verbatim.  The
`written == 0` shortcut in the source returns the original string, which is
extensionally the same text the buffer would hold, so the embedding always
builds the output list.
-/

/-- State-machine core of `replacePlaceholders`: remaining input, the two
quote flags and the next parameter index. -/
def rewriteAux (ph : Nat → Chars) : Chars → Bool → Bool → Nat → Chars
  | [], _, _, _ => []
  | ch :: rest, inQuote, inDoubleQuote, p =>
    if ch = sq then
      -- `ii == last || query[ii+1] != '\''` decides whether the quote toggles
      let toggles : Bool :=
        match rest with
        | c :: _ => c != sq
        | [] => true
      sq :: rewriteAux ph rest (if toggles then !inQuote else inQuote) inDoubleQuote p
    else if ch = '"' then
      ch :: rewriteAux ph rest inQuote (!inDoubleQuote) p
    else if ch = '?' then
      if !inQuote && !inDoubleQuote then
        ph p ++ rewriteAux ph rest inQuote inDoubleQuote (p + 1)
      else
        ch :: rewriteAux ph rest inQuote inDoubleQuote p
    else
      ch :: rewriteAux ph rest inQuote inDoubleQuote p

/-- `(*DB).replacePlaceholders`: scan starts outside quotes with parameter
index 0; `ph` is `d.driver.backend.Placeholder`. -/
def replacePlaceholders (ph : Nat → Chars) (query : Chars) : Chars :=
  rewriteAux ph query false false 0

/-- A numbered-placeholder backend: parameter `p` renders as `$(p+1)`. -/
def phNumbered (p : Nat) : Chars := '$' :: Nat.toDigits 10 (p + 1)

/-- The query `SELECT 'It''s ?'` from the claim, built without quote
characters inside string literals. -/
def itsQuery : Chars :=
  "SELECT ".toList ++ [sq] ++ "It".toList ++ [sq, sq] ++ "s ?".toList ++ [sq]

/-- What the code actually produces on `itsQuery`: the `?` inside the
single-quoted literal is replaced by `$1`. -/
def itsReplaced : Chars :=
  "SELECT ".toList ++ [sq] ++ "It".toList ++ [sq, sq] ++ "s $1".toList ++ [sq]

/-- C2: the scanner's lookahead skips the toggle only at the first quote of a
doubled pair; at the second quote the lookahead sees an ordinary character
and toggles the state anyway.  After `'It''` the scanner believes it is
outside the literal, so the `?` of `SELECT 'It''s ?'` is rewritten to `$1`
— contradicting the claim that a `?` after an escaped quote inside a
single-quoted literal is left alone. -/
theorem replacePlaceholders_escapedQuote_toggles :
    replacePlaceholders phNumbered itsQuery = itsReplaced ∧ itsReplaced ≠ itsQuery := by
  constructor
  · decide
  · decide

/-!
## The query executor — `DB` in part_002.

`DB` carries the transaction pointer `tx` (with `txDone`), the
`replacesPlaceholders` backend flag and the prepared-statement cache keyed
by a 32-bit checksum.  The `sync.RWMutex` protects the map accesses; the
sequential embedding elides the lock.  The underlying `sql.Tx` collaborator
from `database/sql` is modelled with its standard-library semantics: a
transaction carries a `done` flag, and `Commit`/`Rollback` on an already
finalized transaction return `ErrTxDone` without performing any effect.
`commits`/`rollbacks` count the effects actually performed on the backend.
-/

/-- The `database/sql` transaction collaborator (standard-library
semantics, used by part_002 via `d.tx`). -/
structure Tx where
  done : Bool
  commits : Nat
  rollbacks : Nat

/-- `sql.Tx.Commit`: fails with `ErrTxDone` after finalization, otherwise
commits exactly once. -/
def Tx.commit (t : Tx) : Tx × Bool :=
  if t.done then (t, false)
  else ({ t with done := true, commits := t.commits + 1 }, true)

/-- `sql.Tx.Rollback`: fails with `ErrTxDone` after finalization, otherwise
rolls back exactly once. -/
def Tx.rollback (t : Tx) : Tx × Bool :=
  if t.done then (t, false)
  else ({ t with done := true, rollbacks := t.rollbacks + 1 }, true)

/-- `cacheEntry` (part_002 lines 34-37): original SQL text plus the
prepared statement (statement handles are `Nat` identifiers). -/
structure CacheEntry where
  sql : Chars
  stmt : Nat

/-- The `DB` handle (part_002 lines 39-52).  `conn` in the source is
`sqlDb` or `tx` depending on `tx != nil`, so it needs no separate field;
`dbClosed` records the effect of `sqlDb.Close`. -/
structure DB where
  tx : Option Tx
  txDone : Bool
  replacesPlaceholders : Bool
  cache : Nat → Option CacheEntry
  dbClosed : Bool

/-- Transaction-state errors from `gnd.la/orm/driver` plus the
standard-library `ErrTxDone`. -/
inductive DbErr where
  | inTransaction
  | notInTransaction
  | txDone
deriving DecidableEq

/-- The executor's external collaborators: the backend placeholder
formatter, the checksum (`crc32.ChecksumIEEE`), `sqlDb.Prepare` (the source
discards the preparation error with `stmt, _ :=`, so only success or `nil`
is observable), `tx.Stmt` re-binding, and the prepared-statement and
connection execution entry points. -/
structure ExecEnv where
  placeholder : Nat → Chars
  hash : Chars → Nat
  prepare : Chars → Option Nat
  txStmt : Nat → Nat
  stmtExec : Nat → List Nat → Except Nat Nat
  stmtQuery : Nat → List Nat → Except Nat Nat
  stmtQueryRow : Nat → List Nat → Nat
  connExec : Chars → List Nat → Except Nat Nat
  connQuery : Chars → List Nat → Except Nat Nat
  connQueryRow : Chars → List Nat → Nat

/-- `d.tx.Stmt(stmt)` when inside a transaction, the raw statement
otherwise (part_002 lines 190-193 and 206-209). -/
def bindStmt (env : ExecEnv) (d : DB) (stmt : Nat) : Nat :=
  match d.tx with
  | some _ => env.txStmt stmt
  | none => stmt

/-- The prepare-and-cache path of `preparedStmt` (part_002 lines 195-209):
a failed prepare yields `nil` and leaves the cache alone; a successful one
is inserted under `key` and transaction-bound for use. -/
def prepareFresh (env : ExecEnv) (d : DB) (s : Chars) (key : Nat) : Option Nat × DB :=
  match env.prepare s with
  | none => (none, d)
  | some stmt =>
    (some (bindStmt env d stmt),
     { d with cache := fun k => if k = key then some ⟨s, stmt⟩ else d.cache k })

/-- `(*DB).preparedStmt` (part_002 lines 184-210): hash the text, reuse the
cached statement only when the stored text is identical, otherwise prepare
fresh. -/
def preparedStmt (env : ExecEnv) (d : DB) (s : Chars) : Option Nat × DB :=
  let key := env.hash s
  match d.cache key with
  | some cached =>
    if cached.sql = s then (some (bindStmt env d cached.stmt), d)
    else prepareFresh env d s key
  | none => prepareFresh env d s key

/-- Query-text preprocessing in `(*DB).Exec` (part_002 lines 86-88). -/
def DB.execText (env : ExecEnv) (d : DB) (query : Chars) : Chars :=
  if d.replacesPlaceholders then replacePlaceholders env.placeholder query else query

/-- Query-text preprocessing in `(*DB).Query` (part_002 lines 99-101). -/
def DB.queryText (env : ExecEnv) (d : DB) (query : Chars) : Chars :=
  if d.replacesPlaceholders then replacePlaceholders env.placeholder query else query

/-- Query-text preprocessing in `(*DB).QueryRow` (part_002 lines 112-115):
the conditional rewrite is followed by a second, unconditional
`query = d.replacePlaceholders(query)`. -/
def DB.queryRowText (env : ExecEnv) (d : DB) (query : Chars) : Chars :=
  let query :=
    if d.replacesPlaceholders then replacePlaceholders env.placeholder query else query
  replacePlaceholders env.placeholder query

/-- `(*DB).Exec` (part_002 lines 85-96): with arguments, try the prepared
statement; a `nil` statement falls through to the connection. -/
def DB.Exec (env : ExecEnv) (d : DB) (query : Chars) (args : List Nat) :
    Except Nat Nat × DB :=
  let query := DB.execText env d query
  if args ≠ [] then
    match preparedStmt env d query with
    | (some stmt, d2) => (env.stmtExec stmt args, d2)
    | (none, d2) => (env.connExec query args, d2)
  else (env.connExec query args, d)

/-- `(*DB).Query` (part_002 lines 98-109). -/
def DB.Query (env : ExecEnv) (d : DB) (query : Chars) (args : List Nat) :
    Except Nat Nat × DB :=
  let query := DB.queryText env d query
  if args ≠ [] then
    match preparedStmt env d query with
    | (some stmt, d2) => (env.stmtQuery stmt args, d2)
    | (none, d2) => (env.connQuery query args, d2)
  else (env.connQuery query args, d)

/-- `(*DB).QueryRow` (part_002 lines 111-123); `*sql.Row` carries no error,
so the row is a plain identifier. -/
def DB.QueryRow (env : ExecEnv) (d : DB) (query : Chars) (args : List Nat) :
    Nat × DB :=
  let query := DB.queryRowText env d query
  if args ≠ [] then
    match preparedStmt env d query with
    | (some stmt, d2) => (env.stmtQueryRow stmt args, d2)
    | (none, d2) => (env.connQueryRow query args, d2)
  else (env.connQueryRow query args, d)

/-- `(*DB).Begin` (part_002 lines 125-137): refuse inside a transaction;
otherwise copy the handle (`dc := *d`) and give the copy a fresh
transaction.  The underlying `sqlDb.Begin` is modelled as succeeding; its
failure path returns the driver error unchanged and no claim depends on it. -/
def DB.Begin (d : DB) : DB × Except DbErr DB :=
  match d.tx with
  | some _ => (d, .error .inTransaction)
  | none => (d, .ok { d with tx := some ⟨false, 0, 0⟩ })

/-- `(*DB).Commit` (part_002 lines 139-145): `txDone` is set before the
underlying commit; the second component is the error (`none` = success). -/
def DB.Commit (d : DB) : DB × Option DbErr :=
  match d.tx with
  | none => (d, some .notInTransaction)
  | some t =>
    let d2 := { d with txDone := true }
    let r := t.commit
    ({ d2 with tx := some r.1 }, if r.2 then none else some .txDone)

/-- `(*DB).Rollback` (part_002 lines 147-153). -/
def DB.Rollback (d : DB) : DB × Option DbErr :=
  match d.tx with
  | none => (d, some .notInTransaction)
  | some t =>
    let d2 := { d with txDone := true }
    let r := t.rollback
    ({ d2 with tx := some r.1 }, if r.2 then none else some .txDone)

/-- `(*DB).Close` (part_002 lines 155-163): a transactional handle that is
not `txDone` delegates to `tx.Rollback` (note: `txDone` itself is not
updated); a finalized transactional handle is a no-op; otherwise the
underlying database is closed. -/
def DB.Close (d : DB) : DB × Option DbErr :=
  match d.tx with
  | some t =>
    if !d.txDone then
      let r := t.rollback
      ({ d with tx := some r.1 }, if r.2 then none else some .txDone)
    else (d, none)
  | none => ({ d with dbClosed := true }, none)

/-- Iterated `Close`, used to state the repeated-close claim. -/
def closeN : Nat → DB → DB
  | 0, d => d
  | n + 1, d => closeN n (DB.Close d).1

/-!
### Theorems on the executor
-/

/-- Backend with numbered placeholders for the `QueryRow` divergence. -/
def envW10 : ExecEnv :=
  ⟨phNumbered, fun _ => 0, fun _ => none, id, fun _ _ => .ok 0, fun _ _ => .ok 0,
   fun _ _ => 0, fun _ _ => .ok 0, fun _ _ => .ok 0, fun _ _ => 0⟩

/-- A handle whose backend does not replace placeholders. -/
def dbW10 : DB := ⟨none, false, false, fun _ => none, false⟩

def qW10 : Chars := "SELECT x FROM t WHERE y = ?".toList

/-- C10: `QueryRow` does not apply the same preprocessing as `Exec` and
`Query`: its duplicated `query = d.replacePlaceholders(query)` line rewrites
the text even when the backend is not configured to replace placeholders
(and a second time when it is), so the text handed to the connection
diverges from the one `Query`/`Exec` hand over. -/
theorem queryRow_text_divergence :
    DB.queryRowText envW10 dbW10 qW10 = "SELECT x FROM t WHERE y = $1".toList
    ∧ DB.queryText envW10 dbW10 qW10 = qW10
    ∧ DB.execText envW10 dbW10 qW10 = qW10
    ∧ DB.queryRowText envW10 dbW10 qW10 ≠ DB.queryText envW10 dbW10 qW10 := by
  refine ⟨by decide, by decide, by decide, by decide⟩

/-- C4: a cache hit is reused only when the stored SQL text is identical to
the lookup text; a colliding entry with different text, or a miss, prepares
fresh — the fresh path returns exactly the newly prepared statement and
stores it, and a failed prepare yields `nil` leaving the handle unchanged. -/
theorem preparedStmt_textCheck (env : ExecEnv) (d : DB) (s : Chars) :
    (∀ e, d.cache (env.hash s) = some e → e.sql = s →
      preparedStmt env d s = (some (bindStmt env d e.stmt), d))
    ∧ (∀ e, d.cache (env.hash s) = some e → e.sql ≠ s →
      preparedStmt env d s = prepareFresh env d s (env.hash s))
    ∧ (d.cache (env.hash s) = none →
      preparedStmt env d s = prepareFresh env d s (env.hash s))
    ∧ (∀ st, env.prepare s = some st →
      prepareFresh env d s (env.hash s)
        = (some (bindStmt env d st),
           { d with cache := fun k => if k = env.hash s then some ⟨s, st⟩ else d.cache k }))
    ∧ (env.prepare s = none → prepareFresh env d s (env.hash s) = (none, d)) := by
  refine ⟨?_, ?_, ?_, ?_, ?_⟩
  · intro e he heq
    simp [preparedStmt, he, heq]
  · intro e he hne
    simp [preparedStmt, he, hne]
  · intro h
    simp [preparedStmt, h]
  · intro st hst
    simp [prepareFresh, hst]
  · intro h
    simp [prepareFresh, h]

/-- Environment for the cache-collision witness: every text hashes to 0 and
only `"b"` can be prepared. -/
def envW4 : ExecEnv :=
  ⟨phNumbered, fun _ => 0, fun s => if s = "b".toList then some 9 else none, id,
   fun _ _ => .ok 0, fun _ _ => .ok 0, fun _ _ => 0,
   fun _ _ => .ok 0, fun _ _ => .ok 0, fun _ _ => 0⟩

/-- Handle whose cache holds statement 7 for text `"a"` under key 0. -/
def dbW4 : DB :=
  ⟨none, false, true, fun k => if k = 0 then some ⟨"a".toList, 7⟩ else none, false⟩

theorem preparedStmt_textCheck_witness :
    (preparedStmt envW4 dbW4 "a".toList).1 = some 7
    ∧ (preparedStmt envW4 dbW4 "b".toList).1 = some 9 := by
  constructor
  · have h := (preparedStmt_textCheck envW4 dbW4 "a".toList).1 ⟨"a".toList, 7⟩ rfl rfl
    rw [h]
    rfl
  · have h1 := (preparedStmt_textCheck envW4 dbW4 "b".toList).2.1 ⟨"a".toList, 7⟩ rfl (by decide)
    have h2 := (preparedStmt_textCheck envW4 dbW4 "b".toList).2.2.2.1 9 rfl
    rw [h1, h2]
    rfl

/-- When preparation fails and the cache cannot serve the text,
`preparedStmt` returns `nil` and leaves the handle untouched. -/
theorem preparedStmt_prepare_none (env : ExecEnv) (d : DB) (s : Chars)
    (hp : env.prepare s = none)
    (hc : ∀ e, d.cache (env.hash s) = some e → e.sql ≠ s) :
    preparedStmt env d s = (none, d) := by
  simp only [preparedStmt]
  cases hcache : d.cache (env.hash s) with
  | none => simp [prepareFresh, hp]
  | some e =>
    have hne := hc e hcache
    simp [hne, prepareFresh, hp]

/-- C5: with a failed prepare (and no usable cache entry), `Exec`, `Query`
and `QueryRow` each return exactly the unprepared connection call on the
preprocessed text — the preparation failure (whose error the source drops
with `stmt, _ :=`) is never surfaced; any error the caller sees is the
fallback's. -/
theorem exec_prepare_fallback (env : ExecEnv) (d : DB) (q : Chars) (args : List Nat)
    (hargs : args ≠ []) :
    (env.prepare (DB.execText env d q) = none →
      (∀ e, d.cache (env.hash (DB.execText env d q)) = some e →
        e.sql ≠ DB.execText env d q) →
      DB.Exec env d q args = (env.connExec (DB.execText env d q) args, d))
    ∧ (env.prepare (DB.queryText env d q) = none →
      (∀ e, d.cache (env.hash (DB.queryText env d q)) = some e →
        e.sql ≠ DB.queryText env d q) →
      DB.Query env d q args = (env.connQuery (DB.queryText env d q) args, d))
    ∧ (env.prepare (DB.queryRowText env d q) = none →
      (∀ e, d.cache (env.hash (DB.queryRowText env d q)) = some e →
        e.sql ≠ DB.queryRowText env d q) →
      DB.QueryRow env d q args = (env.connQueryRow (DB.queryRowText env d q) args, d)) := by
  refine ⟨?_, ?_, ?_⟩
  · intro hp hc
    simp only [DB.Exec, if_pos hargs, preparedStmt_prepare_none env d _ hp hc]
  · intro hp hc
    simp only [DB.Query, if_pos hargs, preparedStmt_prepare_none env d _ hp hc]
  · intro hp hc
    simp only [DB.QueryRow, if_pos hargs, preparedStmt_prepare_none env d _ hp hc]

/-- Environment in which every prepare fails. -/
def envW5 : ExecEnv :=
  ⟨phNumbered, fun _ => 0, fun _ => none, id, fun _ _ => .ok 0, fun _ _ => .ok 1,
   fun _ _ => 2, fun _ _ => .ok 3, fun _ _ => .ok 4, fun _ _ => 5⟩

def dbW5 : DB := ⟨none, false, true, fun _ => none, false⟩

def qW5 : Chars := "INSERT INTO t VALUES (?)".toList

theorem exec_prepare_fallback_witness :
    DB.Exec envW5 dbW5 qW5 [1] = (envW5.connExec (DB.execText envW5 dbW5 qW5) [1], dbW5)
    ∧ DB.Query envW5 dbW5 qW5 [1] = (envW5.connQuery (DB.queryText envW5 dbW5 qW5) [1], dbW5)
    ∧ DB.QueryRow envW5 dbW5 qW5 [1]
        = (envW5.connQueryRow (DB.queryRowText envW5 dbW5 qW5) [1], dbW5) := by
  have h := exec_prepare_fallback envW5 dbW5 qW5 [1] (by decide)
  exact ⟨h.1 rfl (fun e he => by simp [dbW5] at he),
         h.2.1 rfl (fun e he => by simp [dbW5] at he),
         h.2.2 rfl (fun e he => by simp [dbW5] at he)⟩

/-- A finalized transaction makes `Close` the identity on the handle. -/
theorem close_fix (s : DB) (t1 : Tx) (htx : s.tx = some t1) (hdone : t1.done = true) :
    (DB.Close s).1 = s := by
  cases s with
  | mk tx0 td rp ca cl =>
    cases htx
    cases td <;> simp [DB.Close, Tx.rollback, hdone]

/-- Iterating `Close` on a handle whose transaction is finalized changes
nothing. -/
theorem closeN_fix (m : Nat) (s : DB) (t1 : Tx) (htx : s.tx = some t1)
    (hdone : t1.done = true) : closeN m s = s := by
  induction m with
  | zero => rfl
  | succ n ih => simp [closeN, close_fix s t1 htx hdone, ih]

/-- C6: closing an uncommitted transactional handle rolls the transaction
back exactly once — after any positive number of `Close` calls the
transaction has performed precisely one additional rollback (`Close` never
sets `txDone`, but the second call reaches the already-finalized
`sql.Tx`, which refuses with `ErrTxDone` and performs no effect) — while
`Close` after an explicit `Commit`/`Rollback` (which set `txDone`) is an
idempotent no-op. -/
theorem close_rollback_once (d : DB) (t : Tx)
    (htx : d.tx = some t) (hdone : t.done = false) (htd : d.txDone = false) :
    (∀ n, 1 ≤ n → (closeN n d).tx = some ⟨true, t.commits, t.rollbacks + 1⟩)
    ∧ (∀ d2 t2, d2.tx = some t2 → d2.txDone = true → DB.Close d2 = (d2, none)) := by
  constructor
  · intro n hn
    obtain ⟨m, rfl⟩ : ∃ m, n = m + 1 := ⟨n - 1, by omega⟩
    have hstep : (DB.Close d).1 = { d with tx := some ⟨true, t.commits, t.rollbacks + 1⟩ } := by
      cases d with
      | mk tx0 td rp ca cl =>
        cases htx
        cases htd
        simp [DB.Close, Tx.rollback, hdone]
    have hfix : closeN m (DB.Close d).1 = (DB.Close d).1 := by
      refine closeN_fix m _ ⟨true, t.commits, t.rollbacks + 1⟩ ?_ rfl
      rw [hstep]
    have hunfold : closeN (m + 1) d = closeN m (DB.Close d).1 := rfl
    rw [hunfold, hfix, hstep]
  · intro d2 t2 h1 h2
    cases d2 with
    | mk tx0 td rp ca cl =>
      cases h1
      cases h2
      simp [DB.Close]

def dbTxW6 : DB := ⟨some ⟨false, 0, 0⟩, false, false, fun _ => none, false⟩

def dbDoneW6 : DB := ⟨some ⟨true, 1, 0⟩, true, false, fun _ => none, false⟩

theorem close_rollback_once_witness :
    (closeN 2 dbTxW6).tx = some ⟨true, 0, 1⟩ ∧ DB.Close dbDoneW6 = (dbDoneW6, none) := by
  exact ⟨(close_rollback_once dbTxW6 ⟨false, 0, 0⟩ rfl rfl rfl).1 2 (by decide),
         (close_rollback_once dbTxW6 ⟨false, 0, 0⟩ rfl rfl rfl).2 dbDoneW6 ⟨true, 1, 0⟩ rfl rfl⟩

/-- C7: `Begin` inside a transaction fails with the already-in-transaction
error; `Commit`/`Rollback` outside a transaction fail with the
not-in-transaction error; `Begin` on a non-transactional handle leaves the
receiver untouched (first component) and returns a copy that owns a fresh
transaction. -/
theorem begin_commit_rollback_state (d : DB) :
    (∀ t, d.tx = some t → DB.Begin d = (d, .error .inTransaction))
    ∧ (d.tx = none → DB.Commit d = (d, some .notInTransaction))
    ∧ (d.tx = none → DB.Rollback d = (d, some .notInTransaction))
    ∧ (d.tx = none → DB.Begin d = (d, .ok { d with tx := some ⟨false, 0, 0⟩ })) := by
  refine ⟨?_, ?_, ?_, ?_⟩
  · intro t ht
    simp [DB.Begin, ht]
  · intro h
    simp [DB.Commit, h]
  · intro h
    simp [DB.Rollback, h]
  · intro h
    simp [DB.Begin, h]

def dbTxW7 : DB := ⟨some ⟨false, 2, 3⟩, false, true, fun _ => none, false⟩

def dbPlainW7 : DB := ⟨none, false, true, fun _ => none, false⟩

theorem begin_commit_rollback_state_witness :
    DB.Begin dbTxW7 = (dbTxW7, .error .inTransaction)
    ∧ DB.Commit dbPlainW7 = (dbPlainW7, some .notInTransaction)
    ∧ DB.Rollback dbPlainW7 = (dbPlainW7, some .notInTransaction)
    ∧ DB.Begin dbPlainW7 = (dbPlainW7, .ok { dbPlainW7 with tx := some ⟨false, 0, 0⟩ }) := by
  exact ⟨(begin_commit_rollback_state dbTxW7).1 ⟨false, 2, 3⟩ rfl,
         (begin_commit_rollback_state dbPlainW7).2.1 rfl,
         (begin_commit_rollback_state dbPlainW7).2.2.1 rfl,
         (begin_commit_rollback_state dbPlainW7).2.2.2 rfl⟩

/-!
## The join resolver and field mapper — `src/orm/model.go`.

Models are `Nat` identifiers; a `ModelData` record carries what the claims
consult of `*model`: `name`, `shortName`, and the `driver.Fields` data
(`QNameMap`, `QuotedNames`, `Types`).  The reference graph
(`modelReferences`, `namedReferences`) and the per-model `fields.Methods`
pointer are environment functions built once at registration.  `query.Q`
is narrowed to what `joinWith` inspects: whether the condition is a
`*query.Eq` and its comparison `Value` (compared with
`reflect.DeepEqual`, modelled as equality of the abstracted value).
-/

inductive JoinType where
  | inner
  | outer
  | left
  | right
deriving DecidableEq

/-- A query condition as `joinWith` sees it: an equality reference
(`*query.Eq`, with field and comparison value) or any other condition. -/
inductive Q where
  | eq (field : Chars) (value : Nat)
  | other (tag : Nat)
deriving DecidableEq

mutual
/-- `joinModel` (model.go lines 149-153): the embedded `*model` (non-nil
for every chain the claims range over; the `j.model == nil` branch of
`joinWith` only initializes an empty root and is outside the claims), the
`skip` flag and the optional outgoing join. -/
inductive JoinModel where
  | mk (modelId : Nat) (skip : Bool) (jn : Option Join) : JoinModel

/-- `join` (model.go lines 123-127): target join model, join type and
condition (`nil` only via references built with a condition in the source;
kept optional to mirror the struct). -/
inductive Join where
  | mk (jmodel : JoinModel) (jtype : JoinType) (cond : Option Q) : Join
end

def JoinModel.modelId : JoinModel → Nat
  | .mk m _ _ => m

def JoinModel.skip : JoinModel → Bool
  | .mk _ s _ => s

def JoinModel.jn : JoinModel → Option Join
  | .mk _ _ j => j

def Join.jmodel : Join → JoinModel
  | .mk m _ _ => m

def Join.jtype : Join → JoinType
  | .mk _ t _ => t

def Join.cond : Join → Option Q
  | .mk _ _ q => q

/-- Per-model data consulted by `(*model).Map` (model.go lines 92-105). -/
structure ModelData where
  name : Chars
  shortName : Chars
  qnameMap : Chars → Option Nat
  quotedNames : Nat → Chars
  types : Nat → Nat

/-- The registration-time environment: per-model data, the reference graph
`modelReferences` (source model, target model ↦ candidate joins),
`namedReferences` (source model, type name ↦ referenced model), the
`fields.Methods` and `fields` pointers per model. -/
structure Env where
  modelData : Nat → ModelData
  modelRefs : Nat → Nat → List Join
  namedRefs : Nat → Chars → Option Nat
  methodsOf : Nat → Nat
  fieldsOf : Nat → Nat

/-- `(*joinModel).Fields` (model.go lines 166-171): a skip-marked join
model exposes no fields. -/
def JoinModel.fields (env : Env) (j : JoinModel) : Option Nat :=
  if j.skip then none else some (env.fieldsOf j.modelId)

/-- `strings.IndexByte(s, '|')` plus the two slices `s[:sep]` and
`s[sep+1:]` around the first pipe; `none` when there is no pipe. -/
def splitPipe : Chars → Option (Chars × Chars)
  | [] => none
  | c :: cs =>
    if c = '|' then some ([], cs)
    else
      match splitPipe cs with
      | some (a, b) => some (c :: a, b)
      | none => none

/-!
### `joinWith` — model.go lines 206-259
-/

/-- The candidate-collection loop of the implicit branch: from the current
node down to the tail, gather `m.modelReferences[model]`. -/
def collectCandidates (env : Env) (target : Nat) : JoinModel → List Join
  | .mk mid _ none => env.modelRefs mid target
  | .mk mid _ (some (.mk jm _ _)) =>
    env.modelRefs mid target ++ collectCandidates env target jm

/-- The models of a chain from root to tail, used to characterize the
collection loop. -/
def chainIds : JoinModel → List Nat
  | .mk mid _ none => [mid]
  | .mk mid _ (some (.mk jm _ _)) => mid :: chainIds jm

/-- One step of the redundancy check (model.go lines 228-233): candidate
`v` agrees with `first` when it is an equality condition against the same
target model with a `DeepEqual` comparison value.  The field name is not
compared, exactly as in the source. -/
def isRedundantWith (first : Join) (v : Join) : Bool :=
  match first.cond, v.cond with
  | some (.eq _ value), some (.eq _ value2) =>
    first.jmodel.modelId == v.jmodel.modelId && value == value2
  | _, _ => false

/-- The collapse step (model.go lines 222-238): with more than one
candidate whose first condition is an equality, collapse to the first when
every other candidate is redundant with it. -/
def collapseRedundant : List Join → List Join
  | first :: next :: rest =>
    match first.cond with
    | some (.eq _ _) =>
      if (next :: rest).all (isRedundantWith first) then [first]
      else first :: next :: rest
    | _ => first :: next :: rest
  | cands => cands

/-- Append a join at the chain's tail: the implicit branch leaves `m` at
the tail and assigns `m.join`; the explicit branch walks to the tail first
and does the same. -/
def appendAtTail (jn : Join) : JoinModel → JoinModel
  | .mk mid s none => .mk mid s (some jn)
  | .mk mid s (some (.mk jm jt q)) => .mk mid s (some (.mk (appendAtTail jn jm) jt q))

/-- `candidates[0].clone()` followed by `m.join.jtype = jt`: the clone is a
deep structural copy, so functionally only the type override remains. -/
def Join.withType (c : Join) (jt : JoinType) : Join :=
  .mk c.jmodel jt c.cond

inductive JoinErr where
  | cantJoin
  | ambiguous
deriving DecidableEq

/-- `(*joinModel).joinWith` on a non-empty chain (model.go lines 206-259),
returning the updated chain (the source mutates in place and returns the
appended node `m.join.model`; the appended node is recovered from the
updated chain where needed).  A `nil` condition resolves implicitly via
the reference graph; a non-nil condition appends unconditionally. -/
def joinWith (env : Env) (j : JoinModel) (target : Nat) (q : Option Q)
    (jt : JoinType) : Except JoinErr JoinModel :=
  match q with
  | none =>
    match collapseRedundant (collectCandidates env target j) with
    | [c] => .ok (appendAtTail (c.withType jt) j)
    | [] => .error .cantJoin
    | _ => .error .ambiguous
  | some qc => .ok (appendAtTail (.mk (.mk target false none) jt (some qc)) j)

/-!
### `joinWithField` — model.go lines 261-293
-/

/-- Number of nodes in a chain; the node appended by `joinWith` sits at
depth `numNodes j` of the updated chain (root = depth 0). -/
def numNodes : JoinModel → Nat
  | .mk _ _ none => 1
  | .mk _ _ (some (.mk jm _ _)) => numNodes jm + 1

/-- The node at a given depth of a chain. -/
def nodeAt : Nat → JoinModel → Option JoinModel
  | 0, jm => some jm
  | n + 1, .mk _ _ (some (.mk jm _ _)) => nodeAt n jm
  | _ + 1, .mk _ _ none => none

/-- `last.skip = true` on the node at the given depth (the source mutates
the node `joinWith` returned; that node is the one at depth `numNodes` of
the pre-join chain). -/
def setSkipAt : Nat → JoinModel → JoinModel
  | 0, .mk mid _ jn => .mk mid true jn
  | n + 1, .mk mid s (some (.mk jm jt q)) => .mk mid s (some (.mk (setSkipAt n jm) jt q))
  | _ + 1, .mk mid s none => .mk mid s none

/-- `skip := true` on a node. -/
def markSkip : JoinModel → JoinModel
  | .mk mid _ jn => .mk mid true jn

/-- The chain walk of `joinWithField`: the first node whose model has a
named reference for `typ` wins. -/
def findNamedRef (env : Env) (typ : Chars) : JoinModel → Option Nat
  | .mk mid _ none => env.namedRefs mid typ
  | .mk mid _ (some (.mk jm _ _)) =>
    match env.namedRefs mid typ with
    | some t => some t
    | none => findNamedRef env typ jm

/-- `(*joinModel).joinWithField` (model.go lines 261-293): for a
`Type|Field` reference, find the first chain model with a named reference
for `Type`; if its target is not yet visited, join it implicitly, mark the
appended node skip, record the target in the visited set and accumulate
its `fields.Methods`.  Returns the updated chain, visited set and method
accumulator. -/
def joinWithField (env : Env) (j : JoinModel) (field : Chars) (jt : JoinType)
    (models : List Nat) (methods : List Nat) :
    Except JoinErr (JoinModel × List Nat × List Nat) :=
  match splitPipe field with
  | none => .ok (j, models, methods)
  | some (typ, _) =>
    match findNamedRef env typ j with
    | none => .ok (j, models, methods)
    | some t =>
      if t ∈ models then .ok (j, models, methods)
      else
        match joinWith env j t none jt with
        | .error e => .error e
        | .ok root2 =>
          .ok (setSkipAt (numNodes j) root2, t :: models, methods ++ [env.methodsOf t])

/-!
### `Map` — model.go lines 92-105 and 316-338
-/

inductive MapErr where
  | cantMap (qname : Chars)
  | notThisModel (name : Chars)
  | ambiguous (qname : Chars)
deriving DecidableEq

/-- The `QNameMap` lookup shared by both exits of `(*model).Map`. -/
def mapLookup (md : ModelData) (qname : Chars) : Except MapErr (Chars × Nat) :=
  match md.qnameMap qname with
  | some n => .ok (md.quotedNames n, md.types n)
  | none => .error (.cantMap qname)

/-- `(*model).Map` (model.go lines 92-105): an explicit `Type|` prefix must
match the model's name or short name; the remainder (or the whole name) is
resolved through `QNameMap`. -/
def modelMap (md : ModelData) (qname : Chars) : Except MapErr (Chars × Nat) :=
  match splitPipe qname with
  | some (name, rest) =>
    if name ≠ md.name ∧ name ≠ md.shortName then .error (.notThisModel name)
    else mapLookup md rest
  | none => mapLookup md qname

/-- The candidate collection of `(*joinModel).Map` (model.go lines
317-327): every chain model that resolves the name contributes. -/
def mapCandidates (env : Env) (qname : Chars) : JoinModel → List (Chars × Nat)
  | .mk mid _ none =>
    match modelMap (env.modelData mid) qname with
    | .ok c => [c]
    | .error _ => []
  | .mk mid _ (some (.mk jm _ _)) =>
    (match modelMap (env.modelData mid) qname with
     | .ok c => [c]
     | .error _ => []) ++ mapCandidates env qname jm

/-- `(*joinModel).Map` (model.go lines 316-338): zero candidates cannot be
mapped, one succeeds, several are ambiguous. -/
def joinModelMap (env : Env) (qname : Chars) (j : JoinModel) :
    Except MapErr (Chars × Nat) :=
  match mapCandidates env qname j with
  | [] => .error (.cantMap qname)
  | [c] => .ok c
  | _ => .error (.ambiguous qname)

/-!
### `sortModels.less` — model.go lines 351-361
-/

/-- `sortModels.less` with explicit fuel: the Go recursion
`for v in mi.Fields().References: if v.Model == mj return false;
if v.Model != mi && !less(v.Model, mj) return false; return true`
terminates exactly when the non-self reference graph is well founded, which
the fuel bound witnesses. -/
def lessF (refs : Nat → List Nat) : Nat → Nat → Nat → Bool
  | 0, _, _ => true
  | n + 1, mi, mj =>
    (refs mi).all fun v => !(v == mj) && (v == mi || lessF refs n v mj)

/-- `b` is directly referenced by `a`, or transitively referenced through
`a`'s references (self-references are not followed, mirroring the
`v.Model != mi` guard). -/
inductive Reaches (refs : Nat → List Nat) : Nat → Nat → Prop where
  | direct {a b : Nat} : b ∈ refs a → Reaches refs a b
  | step {a v b : Nat} : v ∈ refs a → v ≠ a → Reaches refs v b → Reaches refs a b

/-!
### Theorems on the join resolver
-/

/-- The collection loop of the implicit branch visits every model of the
chain in order. -/
theorem collect_eq_bind (env : Env) (target : Nat) :
    ∀ j : JoinModel,
      collectCandidates env target j
        = (chainIds j).flatMap (fun mid => env.modelRefs mid target)
  | .mk _ _ none => by simp [collectCandidates, chainIds]
  | .mk _ _ (some (.mk jm _ _)) => by
    simp [collectCandidates, chainIds, collect_eq_bind env target jm]

/-- C1: implicit `joinWith` collects the candidate references to the target
from every model of the chain; zero candidates give the join error; a
single candidate — also a redundant multi-candidate list of equality
conditions against one target model with equal comparison values, which
collapses to its first entry — is cloned with the requested join type and
appended at the tail; distinct multiple candidates give the ambiguity
error. -/
theorem joinWith_implicit_cases (env : Env) (j : JoinModel) (target : Nat)
    (jt : JoinType) :
    collectCandidates env target j
      = (chainIds j).flatMap (fun mid => env.modelRefs mid target)
    ∧ (collectCandidates env target j = [] →
        joinWith env j target none jt = .error .cantJoin)
    ∧ (∀ c, collectCandidates env target j = [c] →
        joinWith env j target none jt = .ok (appendAtTail (c.withType jt) j))
    ∧ (∀ c next rest, collectCandidates env target j = c :: next :: rest →
        (∃ f v, c.cond = some (.eq f v)) →
        (next :: rest).all (isRedundantWith c) = true →
        joinWith env j target none jt = .ok (appendAtTail (c.withType jt) j))
    ∧ (∀ c next rest, collectCandidates env target j = c :: next :: rest →
        ¬((∃ f v, c.cond = some (.eq f v))
            ∧ (next :: rest).all (isRedundantWith c) = true) →
        joinWith env j target none jt = .error .ambiguous) := by
  refine ⟨collect_eq_bind env target j, ?_, ?_, ?_, ?_⟩
  · intro h
    simp [joinWith, h, collapseRedundant]
  · intro c h
    simp [joinWith, h, collapseRedundant]
  · rintro c next rest h ⟨f, v, hc⟩ hall
    simp [joinWith, h, collapseRedundant, hc, hall]
  · intro c next rest h hneg
    rcases hcc : c.cond with _ | qc
    · simp [joinWith, h, collapseRedundant, hcc]
    · cases qc with
      | eq f v =>
        have hall : (next :: rest).all (isRedundantWith c) = false := by
          cases hx : (next :: rest).all (isRedundantWith c)
          · rfl
          · exact absurd ⟨⟨f, v, hcc⟩, hx⟩ hneg
        simp [joinWith, h, collapseRedundant, hcc, hall]
      | other tag =>
        simp [joinWith, h, collapseRedundant, hcc]

/-- A reference candidate used by the C1 witness: an equality reference
into model 2 with comparison value 5. -/
def jW1 : Join := .mk (.mk 2 false none) .left (some (.eq "fk".toList 5))

/-- Witness environment: models 0 and 1 each hold the same equality
reference to model 2; nothing references model 3. -/
def envW1 : Env where
  modelData := fun _ => ⟨[], [], fun _ => none, fun _ => [], fun _ => 0⟩
  modelRefs := fun mid t =>
    match mid, t with
    | 0, 2 => [jW1]
    | 1, 2 => [jW1]
    | _, _ => []
  namedRefs := fun _ _ => none
  methodsOf := fun m => m
  fieldsOf := fun m => m

/-- The witness chain `0 JOIN 1`. -/
def chainW1 : JoinModel :=
  .mk 0 false (some (.mk (.mk 1 false none) .inner (some (.other 0))))

theorem joinWith_implicit_cases_witness :
    joinWith envW1 chainW1 2 none .right
      = .ok (appendAtTail (jW1.withType .right) chainW1)
    ∧ joinWith envW1 chainW1 3 none .inner = .error .cantJoin := by
  constructor
  · exact (joinWith_implicit_cases envW1 chainW1 2 .right).2.2.2.1 jW1 jW1 [] rfl
      ⟨"fk".toList, 5, rfl⟩ rfl
  · exact (joinWith_implicit_cases envW1 chainW1 3 .inner).2.1 rfl

/-- The candidate collection of `(*joinModel).Map` queries every model of
the chain in order. -/
theorem mapCandidates_eq_bind (env : Env) (qname : Chars) :
    ∀ j : JoinModel,
      mapCandidates env qname j
        = (chainIds j).flatMap (fun mid =>
            match modelMap (env.modelData mid) qname with
            | .ok c => [c]
            | .error _ => [])
  | .mk _ _ none => by simp [mapCandidates, chainIds]
  | .mk _ _ (some (.mk jm _ _)) => by
    simp [mapCandidates, chainIds, mapCandidates_eq_bind env qname jm]

/-- C3: an explicit `Type|` prefix makes a model whose name and short name
both differ fail with the not-this-model error regardless of the field; the
chain query asks every model and applies the zero/one/many rule (cannot
map / success / ambiguity), and when no chain model matches the prefix the
chain lookup fails with the cannot-map error. -/
theorem map_one_zero_many (env : Env) (qname : Chars) (j : JoinModel) :
    (∀ md T rest, splitPipe qname = some (T, rest) → T ≠ md.name →
      T ≠ md.shortName → modelMap md qname = .error (.notThisModel T))
    ∧ (mapCandidates env qname j = [] →
        joinModelMap env qname j = .error (.cantMap qname))
    ∧ (∀ c, mapCandidates env qname j = [c] → joinModelMap env qname j = .ok c)
    ∧ (∀ c next rest, mapCandidates env qname j = c :: next :: rest →
        joinModelMap env qname j = .error (.ambiguous qname))
    ∧ (∀ T rest, splitPipe qname = some (T, rest) →
        (∀ mid ∈ chainIds j,
          T ≠ (env.modelData mid).name ∧ T ≠ (env.modelData mid).shortName) →
        joinModelMap env qname j = .error (.cantMap qname)) := by
  have hpre : ∀ md T rest, splitPipe qname = some (T, rest) → T ≠ md.name →
      T ≠ md.shortName → modelMap md qname = .error (.notThisModel T) := by
    intro md T rest hsp h1 h2
    simp only [modelMap, hsp]
    rw [if_pos ⟨h1, h2⟩]
  refine ⟨hpre, ?_, ?_, ?_, ?_⟩
  · intro h
    simp [joinModelMap, h]
  · intro c h
    simp [joinModelMap, h]
  · intro c next rest h
    simp [joinModelMap, h]
  · intro T rest hsp hmiss
    have hnil : mapCandidates env qname j = [] := by
      rw [mapCandidates_eq_bind]
      rw [List.flatMap_eq_nil_iff]
      intro mid hmid
      rw [hpre (env.modelData mid) T rest hsp (hmiss mid hmid).1 (hmiss mid hmid).2]
    simp [joinModelMap, hnil]

/-- Model data for the C3 witness: model `User`/`u` with field `name`. -/
def mdUserW3 : ModelData where
  name := "User".toList
  shortName := "u".toList
  qnameMap := fun q => if q = "name".toList then some 0 else none
  quotedNames := fun _ => "qname0".toList
  types := fun n => n + 10

/-- Model data for the C3 witness: model `Post`/`p` with fields `name` and
`title`. -/
def mdPostW3 : ModelData where
  name := "Post".toList
  shortName := "p".toList
  qnameMap := fun q =>
    if q = "name".toList then some 0
    else if q = "title".toList then some 1 else none
  quotedNames := fun n => if n = 0 then "qname1".toList else "qtitle".toList
  types := fun n => n + 20

def envW3 : Env where
  modelData := fun mid => match mid with | 0 => mdUserW3 | _ => mdPostW3
  modelRefs := fun _ _ => []
  namedRefs := fun _ _ => none
  methodsOf := fun m => m
  fieldsOf := fun m => m

/-- The witness chain User(0) JOIN Post(1). -/
def chainW3 : JoinModel :=
  .mk 0 false (some (.mk (.mk 1 false none) .inner (some (.other 0))))

theorem map_one_zero_many_witness :
    modelMap mdUserW3 "X|name".toList = .error (.notThisModel "X".toList)
    ∧ joinModelMap envW3 "title".toList chainW3 = .ok ("qtitle".toList, 21)
    ∧ joinModelMap envW3 "name".toList chainW3 = .error (.ambiguous "name".toList)
    ∧ joinModelMap envW3 "Zed|name".toList chainW3 = .error (.cantMap "Zed|name".toList) := by
  refine ⟨?_, ?_, ?_, ?_⟩
  · exact (map_one_zero_many envW3 ("X|name".toList) chainW3).1 mdUserW3
      ("X".toList) ("name".toList) rfl (by decide) (by decide)
  · exact (map_one_zero_many envW3 ("title".toList) chainW3).2.2.1
      ("qtitle".toList, 21) rfl
  · exact (map_one_zero_many envW3 ("name".toList) chainW3).2.2.2.1
      ("qname0".toList, 10) ("qname1".toList, 20) [] rfl
  · exact (map_one_zero_many envW3 ("Zed|name".toList) chainW3).2.2.2.2
      ("Zed".toList) ("name".toList) rfl (by decide)

/-- The node appended at the tail sits at depth `numNodes` of the original
chain. -/
theorem nodeAt_append :
    ∀ (j : JoinModel) (c : Join), nodeAt (numNodes j) (appendAtTail c j) = some c.jmodel
  | .mk _ _ none, .mk _ _ _ => by
    simp [numNodes, appendAtTail, nodeAt, Join.jmodel]
  | .mk _ _ (some (.mk jm _ _)), c => by
    simp [numNodes, appendAtTail, nodeAt, nodeAt_append jm c]

/-- `setSkipAt` marks exactly the node at its depth. -/
theorem nodeAt_setSkipAt :
    ∀ (n : Nat) (x : JoinModel), nodeAt n (setSkipAt n x) = (nodeAt n x).map markSkip
  | 0, .mk _ _ _ => by simp [nodeAt, setSkipAt, markSkip]
  | n + 1, .mk _ _ (some (.mk jm _ _)) => by
    simp [nodeAt, setSkipAt, nodeAt_setSkipAt n jm]
  | _ + 1, .mk _ _ none => by simp [nodeAt, setSkipAt]

theorem markSkip_skip : ∀ x : JoinModel, (markSkip x).skip = true
  | .mk _ _ _ => rfl

/-- C9: when `joinWithField` resolves a `Type|Field` reference to an
unvisited model and the implicit join succeeds, the node it appended is
skip-marked and the target model is recorded in the visited set together
with its accumulated methods; a skip-marked join model exposes no fields
through `Fields`. -/
theorem joinWithField_skip_marked (env : Env) (j : JoinModel) (field : Chars)
    (jt : JoinType) (models methods : List Nat) (typ rest : Chars) (t : Nat) (c : Join)
    (hsp : splitPipe field = some (typ, rest))
    (hfind : findNamedRef env typ j = some t)
    (hvis : t ∉ models)
    (hcand : collapseRedundant (collectCandidates env t j) = [c]) :
    joinWithField env j field jt models methods
      = .ok (setSkipAt (numNodes j) (appendAtTail (c.withType jt) j),
             t :: models, methods ++ [env.methodsOf t])
    ∧ nodeAt (numNodes j) (setSkipAt (numNodes j) (appendAtTail (c.withType jt) j))
        = some (markSkip c.jmodel)
    ∧ (markSkip c.jmodel).skip = true
    ∧ t ∈ t :: models
    ∧ (∀ node : JoinModel, node.skip = true → JoinModel.fields env node = none) := by
  refine ⟨?_, ?_, markSkip_skip _, List.mem_cons_self t models, ?_⟩
  · simp [joinWithField, hsp, hfind, hvis, joinWith, hcand]
  · rw [nodeAt_setSkipAt, nodeAt_append]
    rfl
  · intro node h
    simp [JoinModel.fields, h]

/-- Equality reference of model 0 into model 2, used by the C9 witness. -/
def jW9 : Join := .mk (.mk 2 false none) .left (some (.eq "r".toList 1))

/-- Witness environment: model 0 has the named reference `R` to model 2 and
one candidate reference for it. -/
def envW9 : Env where
  modelData := fun _ => ⟨[], [], fun _ => none, fun _ => [], fun _ => 0⟩
  modelRefs := fun mid t =>
    match mid, t with
    | 0, 2 => [jW9]
    | _, _ => []
  namedRefs := fun mid typ =>
    if mid = 0 ∧ typ = "R".toList then some 2 else none
  methodsOf := fun m => m + 10
  fieldsOf := fun m => m

def chainW9 : JoinModel := .mk 0 false none

theorem joinWithField_skip_marked_witness :
    joinWithField envW9 chainW9 "R|x".toList .left [] []
      = .ok (setSkipAt 1 (appendAtTail (jW9.withType .left) chainW9), [2], [12])
    ∧ nodeAt 1 (setSkipAt 1 (appendAtTail (jW9.withType .left) chainW9))
      = some (markSkip jW9.jmodel) := by
  have h := joinWithField_skip_marked envW9 chainW9 ("R|x".toList) .left [] []
    ("R".toList) ("x".toList) 2 jW9 rfl rfl (by decide) rfl
  exact ⟨h.1, h.2.1⟩

/-!
### Theorems on `sortModels.less`
-/

/-- C8: on a reference graph whose non-self edges admit a rank function
(the acyclicity the source recursion needs to terminate), `less(a, b)` with
enough fuel is true exactly when `b` is neither directly referenced by `a`
nor transitively referenced through `a`'s references. -/
theorem sortModels_less_char (refs : Nat → List Nat) (rank : Nat → Nat)
    (hrank : ∀ a v, v ∈ refs a → v ≠ a → rank v < rank a) :
    ∀ n mi mj, rank mi < n → (lessF refs n mi mj = true ↔ ¬ Reaches refs mi mj) := by
  intro n
  induction n with
  | zero =>
    intro mi mj h
    exact absurd h (Nat.not_lt_zero _)
  | succ n ih =>
    intro mi mj hlt
    constructor
    · intro hall hr
      rw [lessF, List.all_eq_true] at hall
      cases hr with
      | direct hb =>
        have hx := hall _ hb
        simp at hx
      | step hv hne hr2 =>
        have hx := hall _ hv
        simp only [Bool.and_eq_true, Bool.not_eq_true', beq_eq_false_iff_ne,
          Bool.or_eq_true, beq_iff_eq] at hx
        rcases hx.2 with heq | hless
        · exact hne heq
        · have hrv : rank _ < n :=
            lt_of_lt_of_le (hrank mi _ hv hne) (Nat.lt_succ_iff.mp hlt)
          exact (ih _ mj hrv).mp hless hr2
    · intro hnr
      rw [lessF, List.all_eq_true]
      intro v hv
      have h1 : v ≠ mj := fun h => hnr (Reaches.direct (h ▸ hv))
      by_cases h2 : v = mi
      · subst h2
        simp [h1]
      · have hrv : rank v < n :=
          lt_of_lt_of_le (hrank mi v hv h2) (Nat.lt_succ_iff.mp hlt)
        have hless : lessF refs n v mj = true :=
          (ih v mj hrv).mpr (fun hr => hnr (Reaches.step hv h2 hr))
        simp [h1, hless]

/-- Witness reference graph: 0 references 1, 1 references 2. -/
def refsW8 : Nat → List Nat := fun a =>
  match a with
  | 0 => [1]
  | 1 => [2]
  | _ => []

/-- Rank function witnessing the acyclicity of `refsW8`. -/
def rankW8 : Nat → Nat := fun a =>
  match a with
  | 0 => 2
  | 1 => 1
  | _ => 0

theorem sortModels_less_char_witness :
    lessF refsW8 3 0 1 = false ∧ lessF refsW8 3 2 0 = true := by
  have hrank : ∀ a v, v ∈ refsW8 a → v ≠ a → rankW8 v < rankW8 a := by
    intro a v hv hne
    match a with
    | 0 =>
      simp [refsW8] at hv
      subst hv
      decide
    | 1 =>
      simp [refsW8] at hv
      subst hv
      decide
    | n + 2 =>
      simp [refsW8] at hv
  constructor
  · have hiff := sortModels_less_char refsW8 rankW8 hrank 3 0 1 (by decide)
    have hnot : ¬ lessF refsW8 3 0 1 = true :=
      fun h => (hiff.mp h) (Reaches.direct (by simp [refsW8]))
    exact Bool.eq_false_iff.mpr hnot
  · have hiff := sortModels_less_char refsW8 rankW8 hrank 3 2 0 (by decide)
    refine hiff.mpr ?_
    intro hr
    cases hr with
    | direct hb => simp [refsW8] at hb
    | step hv _ _ => simp [refsW8] at hv

end Gondola
